import Mathlib

/-!
Verification development for the shorebird updater's patch-lifecycle state
machine and update/rollback engine.

The repository's `src/` holds only the two published C headers
(`src/library/include/updater.h`, autogenerated by cbindgen, and
`src/shorebird_code_push/updater.h`): every function of the callable surface
is declared there with its documentation, but the implementation behind the
declarations is not part of `src/`.  The engine itself (PatchManager,
BootRecordStore, LaunchTracker, UpdateService) is therefore modelled from the
spec, definition by definition; each such definition carries a doc comment
starting `Modelled from the spec:` naming the missing component.  The two
headers are the authority for the boundary signatures and sentinels
(`uintptr_t` with 0 for "no next patch" in the library header, `char*` with
NULL in the shorebird_code_push header).
-/

/-- Modelled from the spec: status of a known patch record,
`status ∈ {Discovered, Downloading, Downloaded, VerificationFailed, Bad}`
(spec §3, Patch).  The implementation behind the headers is not in `src/`. -/
inductive PatchStatus
  | Discovered
  | Downloading
  | Downloaded
  | VerificationFailed
  | Bad
deriving DecidableEq

/-- Modelled from the spec: a known patch record, `number` (monotonically
increasing integer, unique per release track) together with its status
(spec §3, Patch). -/
structure Patch where
  number : Nat
  status : PatchStatus
deriving DecidableEq

/-- Modelled from the spec: BootState, `current_boot_patch` (patch number or
"none" = running original baseline), `next_boot_patch` (patch number or
"none"), together with the set of known Patch records that the persisted
state document carries (spec §3, BootState and Persisted state document). -/
structure BootState where
  current_boot_patch : Option Nat
  next_boot_patch : Option Nat
  patches : List Patch
deriving DecidableEq

/-- Modelled from the spec: the LaunchTracker's state machine per process
run, over `{NotStarted, Started, Succeeded, Failed}` (spec §4.3).  The
launch attempt outcome for the current boot patch is carried by this state
(`Started` = Pending attempt). -/
inductive LaunchState
  | NotStarted
  | Started
  | Succeeded
  | Failed
deriving DecidableEq

/-- The whole in-memory engine state: PatchManager's view of BootState plus
the LaunchTracker state. -/
structure EngineState where
  boot : BootState
  launch : LaunchState
deriving DecidableEq

/-- Modelled from the spec: the error taxonomy relevant to the launch
contract, `StateError/OrderingError (API misuse, e.g. duplicate promote or
success-before-start) — recovered locally by ignoring the call` (spec §7). -/
inductive UpdaterError
  | StateError
  | OrderingError
deriving DecidableEq

/-- Status of the patch record numbered `n`, or `none` when no record with
that number is known.  Record lookup by number. -/
def statusOf (ps : List Patch) (n : Nat) : Option PatchStatus :=
  (ps.find? (fun p => p.number == n)).map Patch.status

/-- Replace the status of the record numbered `n`, or append a fresh record
when none exists. -/
def setStatus (ps : List Patch) (n : Nat) (st : PatchStatus) : List Patch :=
  match ps with
  | [] => [⟨n, st⟩]
  | p :: rest => if p.number = n then ⟨n, st⟩ :: rest else p :: setStatus rest n st

/-- `true` when patch number `n` is newer than the currently booted patch;
the baseline ("none") is older than every patch. -/
def isNewer : Option Nat → Nat → Bool
  | none, _ => true
  | some c, n => c < n

/-- Modelled from the spec: `PatchManager.commit_new_patch(patch)` — called
after the Downloader verifies an artifact.  Sets patch.status = Downloaded;
sets next_boot_patch = patch.number only if patch.number > current_boot_patch
and the patch is not Bad.  Idempotent: committing the same already-committed
patch number is a no-op; Bad patches are never re-selected as next-boot, and
a patch stays Bad once a failed launch was reported for it (spec §4.1, §3). -/
def commit_new_patch (s : EngineState) (n : Nat) : EngineState :=
  match statusOf s.boot.patches n with
  | some PatchStatus.Downloaded => s
  | some PatchStatus.Bad => s
  | _ =>
    { s with boot :=
      { s.boot with
        patches := setStatus s.boot.patches n PatchStatus.Downloaded
        next_boot_patch :=
          if isNewer s.boot.current_boot_patch n then some n
          else s.boot.next_boot_patch } }

/-- `shorebird_next_boot_patch_number` as declared in
`src/library/include/updater.h` (lines 58-62): the patch number that will
boot on the next run of the app, or 0 if there is no next patch
(`uintptr_t`, sentinel 0). -/
def shorebird_next_boot_patch_number (s : EngineState) : Nat :=
  (s.boot.next_boot_patch).getD 0

/-- `shorebird_next_boot_patch_number` as declared in
`src/shorebird_code_push/updater.h` (lines 41-44): the active patch number as
an owned string, or NULL (here `none`) if there is no active patch. -/
def shorebird_next_boot_patch_number_str (s : EngineState) : Option String :=
  (s.boot.next_boot_patch).map toString

/-- Modelled from the spec: the rollback target computed by
`mark_bad_and_rollback` — the highest Downloaded, non-Bad patch older than
`n`, or "none" if none exists (spec §4.1). -/
def rollback_candidate (ps : List Patch) (n : Nat) : Option Nat :=
  ps.foldr
    (fun p acc =>
      if p.number < n && p.status == PatchStatus.Downloaded then
        match acc with
        | none => some p.number
        | some m => some (max m p.number)
      else acc)
    none

/-- Modelled from the spec: `PatchManager.mark_bad_and_rollback(patch_number)`
— sets that patch's status to Bad; if it equals next_boot_patch,
next_boot_patch reverts to the highest Downloaded, non-Bad patch older than
it, or "none" if none exists; current_boot_patch is unaffected (spec §4.1). -/
def mark_bad_and_rollback (s : EngineState) (n : Nat) : EngineState :=
  { s with boot :=
    { current_boot_patch := s.boot.current_boot_patch
      next_boot_patch :=
        if s.boot.next_boot_patch = some n then
          rollback_candidate (setStatus s.boot.patches n PatchStatus.Bad) n
        else s.boot.next_boot_patch
      patches := setStatus s.boot.patches n PatchStatus.Bad } }

/-- Modelled from the spec: `PatchManager.promote_next_to_current()` — sets
current_boot_patch = next_boot_patch, leaving next_boot_patch unchanged so
repeated calls are idempotent (spec §4.1). -/
def promote_next_to_current (b : BootState) : BootState :=
  { b with current_boot_patch := b.next_boot_patch }

/-- Modelled from the spec: `shorebird_report_launch_start` (declared in
`src/library/include/updater.h` lines 90-97) — NotStarted → Started, calls
`promote_next_to_current`; fails with `StateError` if called twice without an
intervening success/failure report, ignoring the call (spec §4.3, §4.1, §7). -/
def report_launch_start (s : EngineState) : Option UpdaterError × EngineState :=
  match s.launch with
  | LaunchState.Started => (some UpdaterError.StateError, s)
  | _ => (none, { boot := promote_next_to_current s.boot, launch := LaunchState.Started })

/-- Modelled from the spec: `shorebird_report_launch_failure` (declared in
`src/library/include/updater.h` lines 99-104) — Started → Failed, recording
the failed attempt and calling `mark_bad_and_rollback(current_boot_patch)`;
calling it while NotStarted fails with `OrderingError` and is ignored;
repeated calls after Failed are no-ops; a failure reported after a success is
API misuse, ignored (spec §4.3, §7). -/
def report_launch_failure (s : EngineState) : Option UpdaterError × EngineState :=
  match s.launch with
  | LaunchState.NotStarted => (some UpdaterError.OrderingError, s)
  | LaunchState.Succeeded => (some UpdaterError.OrderingError, s)
  | LaunchState.Failed => (none, s)
  | LaunchState.Started =>
    match s.boot.current_boot_patch with
    | none => (none, { s with launch := LaunchState.Failed })
    | some c => (none, { mark_bad_and_rollback s c with launch := LaunchState.Failed })

/-- Modelled from the spec: `shorebird_report_launch_success` — Started →
Succeeded; idempotent; while NotStarted fails with `OrderingError` and is
ignored (spec §4.3, §7). -/
def report_launch_success (s : EngineState) : Option UpdaterError × EngineState :=
  match s.launch with
  | LaunchState.NotStarted => (some UpdaterError.OrderingError, s)
  | LaunchState.Failed => (some UpdaterError.OrderingError, s)
  | LaunchState.Succeeded => (none, s)
  | LaunchState.Started => (none, { s with launch := LaunchState.Succeeded })

/-- Modelled from the spec: patch metadata returned by the update service
query — number, checksum, download descriptor (spec §2, UpdateClient). -/
structure PatchMetadata where
  number : Nat
  checksum : Nat
deriving DecidableEq

/-- Modelled from the spec: the "current best-known patch number" the
UpdateClient queries the update service with (spec §4.4) — the largest patch
number among the currently booted patch and all known patch records. -/
def best_known (s : EngineState) : Nat :=
  max ((s.boot.current_boot_patch).getD 0)
    (s.boot.patches.foldr (fun p acc => max p.number acc) 0)

/-- Modelled from the spec: `Downloader.fetch_and_verify(metadata)` followed
by commit — computes the downloaded artifact's checksum (`actual`) and checks
it against the metadata's expected value; on success the patch is committed,
on mismatch the patch record is marked `VerificationFailed` and not committed
to BootState (spec §4.5). -/
def fetch_and_verify (s : EngineState) (meta : PatchMetadata) (actual : Nat) : EngineState :=
  if actual = meta.checksum then commit_new_patch s meta.number
  else
    { s with boot :=
      { s.boot with patches := setStatus s.boot.patches meta.number PatchStatus.VerificationFailed } }

/-- Modelled from the spec: `shorebird_update` / the UpdateService pipeline
check → fetch → verify → commit (spec §4.6); the check step asks the update
service for a patch newer than the current best-known patch number
(spec §4.4), so the pipeline only proceeds for genuinely newer patches. -/
def run_update (s : EngineState) (meta : PatchMetadata) (actual : Nat) : EngineState :=
  if best_known s < meta.number then fetch_and_verify s meta actual else s

/-- One operation of the engine's callable surface that mutates state. -/
inductive Op
  | commit (n : Nat)
  | upd (meta : PatchMetadata) (actual : Nat)
  | launch_start
  | launch_failure
  | launch_success
deriving DecidableEq

/-- The state transition of one operation; error results leave the state
unchanged (errors are recovered locally by ignoring the call, spec §7). -/
def step (s : EngineState) : Op → EngineState
  | Op.commit n => commit_new_patch s n
  | Op.upd meta actual => run_update s meta actual
  | Op.launch_start => (report_launch_start s).2
  | Op.launch_failure => (report_launch_failure s).2
  | Op.launch_success => (report_launch_success s).2

/-- Run a sequence of operations. -/
def run (s : EngineState) (ops : List Op) : EngineState :=
  ops.foldl step s

/-- Modelled from the spec: the fresh-install state — BootState is created on
first init, baseline-only (spec §3), and the LaunchTracker starts NotStarted. -/
def initState : EngineState :=
  { boot := { current_boot_patch := none, next_boot_patch := none, patches := [] }
    launch := LaunchState.NotStarted }

/-- States reachable from the fresh-install state by engine operations. -/
inductive Reachable : EngineState → Prop
  | init : Reachable initState
  | step {s : EngineState} (op : Op) : Reachable s → Reachable (step s op)

/-! ### BootRecordStore: durable persistence (modelled) -/

/-- Modelled from the spec: the empty/baseline BootState a fresh install
starts from (spec §4.2 load, §3 Lifecycle). -/
def emptyBootState : BootState :=
  { current_boot_patch := none, next_boot_patch := none, patches := [] }

/-- Encoding of an optional patch number in the persisted document:
0 = "none", n + 1 = patch n. -/
def encodeOpt : Option Nat → Nat
  | none => 0
  | some n => n + 1

/-- Decoding of an optional patch number from the persisted document. -/
def decodeOpt : Nat → Option Nat
  | 0 => none
  | Nat.succ n => some n

/-- Serialized form of a patch status. -/
def statusCode : PatchStatus → Nat
  | PatchStatus.Discovered => 0
  | PatchStatus.Downloading => 1
  | PatchStatus.Downloaded => 2
  | PatchStatus.VerificationFailed => 3
  | PatchStatus.Bad => 4

/-- Parse a patch status from its serialized form; out-of-range codes make
the document unreadable. -/
def statusOfCode : Nat → Option PatchStatus
  | 0 => some PatchStatus.Discovered
  | 1 => some PatchStatus.Downloading
  | 2 => some PatchStatus.Downloaded
  | 3 => some PatchStatus.VerificationFailed
  | 4 => some PatchStatus.Bad
  | _ => none

/-- Serialize the known patch records: number and status code, flattened. -/
def encodePatches : List Patch → List Nat
  | [] => []
  | p :: ps => p.number :: statusCode p.status :: encodePatches ps

/-- Parse the known patch records back; a truncated or malformed tail makes
the document unreadable. -/
def decodePatches : List Nat → Option (List Patch)
  | [] => some []
  | n :: c :: rest =>
    (statusOfCode c).bind fun st =>
      (decodePatches rest).map fun ps => ⟨n, st⟩ :: ps
  | _ => none

/-- Modelled from the spec: `BootRecordStore.save(state)` — the serialized
persisted state document: BootState (current and next boot patch) plus the
known patch records (spec §4.2, §3 Persisted state document).  The atomic
temp-file-and-rename mechanics live below the interface; what a later load
observes is exactly this document. -/
def bootRecordSave (b : BootState) : List Nat :=
  encodeOpt b.current_boot_patch :: encodeOpt b.next_boot_patch :: encodePatches b.patches

/-- Parse a persisted document; `none` means the document is unreadable. -/
def parseBootState : List Nat → Option BootState
  | c :: x :: rest =>
    (decodePatches rest).map fun ps =>
      { current_boot_patch := decodeOpt c, next_boot_patch := decodeOpt x, patches := ps }
  | _ => none

/-- Modelled from the spec: `BootRecordStore.load()` — reads the persisted
document for the current release_version; returns an empty/baseline state if
the document is absent (`none`) or unreadable (fails to parse), treated as a
fresh install rather than a fatal error (spec §4.2). -/
def bootRecordLoad (doc : Option (List Nat)) : BootState :=
  ((doc.bind parseBootState).getD emptyBootState)

/-! ### The boundary API and init (modelled) -/

/-- The `AppParameters` struct of both headers: release_version,
original_libapp_paths (with its length folded into the list) and cache_dir. -/
structure AppParameters where
  release_version : String
  original_libapp_paths : List String
  cache_dir : String
deriving DecidableEq

/-- Modelled from the spec: the compiled-in YAML settings document once
parsed — service base URL and channel; a malformed document or one missing
required options is represented by `none` at the use site (spec §2 Config,
§6). -/
structure YamlSettings where
  base_url : String
  channel : String
deriving DecidableEq

/-- Modelled from the spec: configuration validation at init —
release_version required non-empty, original_libapp_paths non-empty,
cache_dir writable, settings document well-formed with its required options
present (spec §3 Config, §6, §7 ConfigError).  Whether cache_dir is writable
is a fact about the filesystem, passed in as `cache_dir_writable`. -/
def valid_config (p : AppParameters) (yaml : Option YamlSettings)
    (cache_dir_writable : Bool) : Bool :=
  !p.release_version.isEmpty && !p.original_libapp_paths.isEmpty &&
    cache_dir_writable && yaml.isSome

/-- Modelled from the spec: `shorebird_init` (declared in
`src/library/include/updater.h` lines 48-56) — returns true on success and
false on failure; if false is returned the updater library will not be
usable, which the model renders as the process-wide engine state staying
`none` (spec §7 ConfigError, header doc). -/
def shorebird_init (p : AppParameters) (yaml : Option YamlSettings)
    (cache_dir_writable : Bool) : Bool × Option EngineState :=
  if valid_config p yaml cache_dir_writable then (true, some initState)
  else (false, none)

/-- Modelled from the spec: `shorebird_next_boot_patch_path` — the path of
the next-boot patch artifact under cache_dir/patches/<number>/, or NULL
(`none`) when there is no next patch (spec §6, header doc). -/
def next_boot_patch_path (s : EngineState) : Option String :=
  (s.boot.next_boot_patch).map fun n => "patches/" ++ toString n

/-- Modelled from the spec: `shorebird_check_for_update` — pure query against
the update service: an update is available when the service knows a patch
newer than the current best-known patch number (spec §4.4, §4.6);
`server_latest` is the service's answer. -/
def shorebird_check_for_update (s : EngineState) (server_latest : Nat) : Bool :=
  best_known s < server_latest

/-- One call of the boundary API surface. -/
inductive ApiOp
  | next_number
  | next_path
  | check (server_latest : Nat)
  | upd (meta : PatchMetadata) (actual : Nat)
  | launch_start
  | launch_failure
  | launch_success
deriving DecidableEq

/-- The value a boundary call hands back to the host application. -/
inductive ApiResult
  | num (n : Nat)
  | str (s : Option String)
  | flag (b : Bool)
  | err (e : Option UpdaterError)
  | unit
deriving DecidableEq

/-- Modelled from the spec: the boundary functions as total functions over
the process-wide engine state (`none` = init failed or never ran).  When the
state is `none` every call is a safe no-op returning the documented
negative/null sentinel; otherwise the call delegates to the engine
(spec §7, §6). -/
def apiStep : Option EngineState → ApiOp → ApiResult × Option EngineState
  | none, ApiOp.next_number => (ApiResult.num 0, none)
  | none, ApiOp.next_path => (ApiResult.str none, none)
  | none, ApiOp.check _ => (ApiResult.flag false, none)
  | none, ApiOp.upd _ _ => (ApiResult.unit, none)
  | none, ApiOp.launch_start => (ApiResult.unit, none)
  | none, ApiOp.launch_failure => (ApiResult.unit, none)
  | none, ApiOp.launch_success => (ApiResult.unit, none)
  | some s, ApiOp.next_number =>
    (ApiResult.num (shorebird_next_boot_patch_number s), some s)
  | some s, ApiOp.next_path => (ApiResult.str (next_boot_patch_path s), some s)
  | some s, ApiOp.check latest =>
    (ApiResult.flag (shorebird_check_for_update s latest), some s)
  | some s, ApiOp.upd meta actual => (ApiResult.unit, some (run_update s meta actual))
  | some s, ApiOp.launch_start =>
    (ApiResult.err (report_launch_start s).1, some (report_launch_start s).2)
  | some s, ApiOp.launch_failure =>
    (ApiResult.err (report_launch_failure s).1, some (report_launch_failure s).2)
  | some s, ApiOp.launch_success =>
    (ApiResult.err (report_launch_success s).1, some (report_launch_success s).2)

/-! ### Concrete states used to instantiate the theorems -/

/-- A state running patch 5 with patch 6 downloaded and selected next. -/
def exampleState56 : EngineState :=
  { boot :=
    { current_boot_patch := some 5
      next_boot_patch := some 6
      patches := [⟨5, PatchStatus.Downloaded⟩, ⟨6, PatchStatus.Downloaded⟩] }
    launch := LaunchState.NotStarted }

/-- A state with two downloaded patches, used for the frame condition. -/
def exampleStateFrame : EngineState :=
  { boot :=
    { current_boot_patch := some 1
      next_boot_patch := some 2
      patches := [⟨1, PatchStatus.Downloaded⟩, ⟨2, PatchStatus.Downloaded⟩] }
    launch := LaunchState.Started }

/-- An invalid configuration: empty release_version. -/
def badParams : AppParameters :=
  { release_version := "", original_libapp_paths := ["lib/arm64/libapp.so"], cache_dir := "/cache" }

/-! ### Lemmas about patch record lookup and update -/

theorem statusOf_nil (n : Nat) : statusOf [] n = none := rfl

theorem statusOf_cons (p : Patch) (rest : List Patch) (n : Nat) :
    statusOf (p :: rest) n = if p.number = n then some p.status else statusOf rest n := by
  by_cases h : p.number = n
  · rw [if_pos h]
    unfold statusOf
    rw [List.find?_cons_of_pos _ (by simpa using h)]
    rfl
  · rw [if_neg h]
    unfold statusOf
    rw [List.find?_cons_of_neg _ (by simpa using h)]

theorem setStatus_nil (n : Nat) (st : PatchStatus) :
    setStatus [] n st = [⟨n, st⟩] := rfl

theorem setStatus_cons (p : Patch) (rest : List Patch) (n : Nat) (st : PatchStatus) :
    setStatus (p :: rest) n st =
      if p.number = n then ⟨n, st⟩ :: rest else p :: setStatus rest n st := rfl

theorem statusOf_setStatus_self (ps : List Patch) (n : Nat) (st : PatchStatus) :
    statusOf (setStatus ps n st) n = some st := by
  induction ps with
  | nil => simp [setStatus_nil, statusOf_cons]
  | cons p rest ih =>
    rw [setStatus_cons]
    by_cases h : p.number = n
    · rw [if_pos h, statusOf_cons]
      simp
    · rw [if_neg h, statusOf_cons, if_neg h, ih]

theorem statusOf_setStatus_ne (ps : List Patch) (n m : Nat) (st : PatchStatus)
    (hnm : m ≠ n) : statusOf (setStatus ps n st) m = statusOf ps m := by
  induction ps with
  | nil =>
    rw [setStatus_nil, statusOf_cons, if_neg (Ne.symm hnm)]
  | cons p rest ih =>
    rw [setStatus_cons]
    by_cases h : p.number = n
    · have hpm : p.number ≠ m := by rw [h]; exact Ne.symm hnm
      rw [if_pos h, statusOf_cons, statusOf_cons, if_neg (Ne.symm hnm), if_neg hpm]
    · rw [if_neg h, statusOf_cons, statusOf_cons, ih]

theorem mem_setStatus (ps : List Patch) (n : Nat) (st : PatchStatus) (q : Patch)
    (hq : q ∈ setStatus ps n st) : q = ⟨n, st⟩ ∨ q ∈ ps := by
  induction ps with
  | nil =>
    rw [setStatus_nil] at hq
    exact Or.inl (List.mem_singleton.mp hq)
  | cons p rest ih =>
    rw [setStatus_cons] at hq
    by_cases h : p.number = n
    · rw [if_pos h] at hq
      rcases List.mem_cons.mp hq with h1 | h2
      · exact Or.inl h1
      · exact Or.inr (List.mem_cons_of_mem _ h2)
    · rw [if_neg h] at hq
      rcases List.mem_cons.mp hq with h1 | h2
      · exact Or.inr (h1 ▸ List.mem_cons_self _ _)
      · rcases ih h2 with h3 | h4
        · exact Or.inl h3
        · exact Or.inr (List.mem_cons_of_mem _ h4)

theorem number_mem_setStatus (ps : List Patch) (n : Nat) (st : PatchStatus) (m : Nat) :
    m ∈ (setStatus ps n st).map Patch.number ↔ m = n ∨ m ∈ ps.map Patch.number := by
  induction ps with
  | nil => simp [setStatus_nil]
  | cons p rest ih =>
    rw [setStatus_cons]
    by_cases h : p.number = n
    · rw [if_pos h]
      simp only [List.map_cons, List.mem_cons, h]
      tauto
    · rw [if_neg h]
      simp only [List.map_cons, List.mem_cons, ih]
      tauto

theorem nodup_setStatus (ps : List Patch) (n : Nat) (st : PatchStatus)
    (h : (ps.map Patch.number).Nodup) :
    ((setStatus ps n st).map Patch.number).Nodup := by
  induction ps with
  | nil => simp [setStatus_nil]
  | cons p rest ih =>
    rw [List.map_cons, List.nodup_cons] at h
    rw [setStatus_cons]
    by_cases hp : p.number = n
    · rw [if_pos hp, List.map_cons, List.nodup_cons]
      exact ⟨hp ▸ h.1, h.2⟩
    · rw [if_neg hp, List.map_cons, List.nodup_cons]
      refine ⟨?_, ih h.2⟩
      rw [number_mem_setStatus]
      rintro (h1 | h2)
      · exact hp h1
      · exact h.1 h2

/-- With unique patch numbers, membership of a record determines the lookup. -/
theorem statusOf_eq_of_mem (ps : List Patch) (p : Patch)
    (hnd : (ps.map Patch.number).Nodup) (hp : p ∈ ps) :
    statusOf ps p.number = some p.status := by
  induction ps with
  | nil => cases hp
  | cons q rest ih =>
    rw [List.map_cons, List.nodup_cons] at hnd
    rw [statusOf_cons]
    rcases List.mem_cons.mp hp with h | h
    · rw [if_pos (by rw [h])]
      rw [h]
    · have hq : q.number ≠ p.number := by
        intro hqp
        exact hnd.1 (hqp ▸ List.mem_map_of_mem Patch.number h)
      rw [if_neg hq]
      exact ih hnd.2 h

/-- Conversely, a successful lookup exhibits a member record. -/
theorem mem_of_statusOf_eq (ps : List Patch) (n : Nat) (st : PatchStatus)
    (h : statusOf ps n = some st) : (⟨n, st⟩ : Patch) ∈ ps := by
  induction ps with
  | nil => simp [statusOf_nil] at h
  | cons p rest ih =>
    rw [statusOf_cons] at h
    by_cases hp : p.number = n
    · rw [if_pos hp] at h
      have hps : p.status = st := by
        injection h
      have : p = ⟨n, st⟩ := by
        cases p
        simp_all
      exact this ▸ List.mem_cons_self _ _
    · rw [if_neg hp] at h
      exact List.mem_cons_of_mem _ (ih h)

/-! ### Lemmas about the rollback target -/

theorem rollback_candidate_cons (p : Patch) (ps : List Patch) (n : Nat) :
    rollback_candidate (p :: ps) n =
      if p.number < n && p.status == PatchStatus.Downloaded then
        match rollback_candidate ps n with
        | none => some p.number
        | some m => some (max m p.number)
      else rollback_candidate ps n := rfl

/-- Any number the rollback computation returns names a Downloaded record
older than the marked patch. -/
theorem rollback_candidate_sound (ps : List Patch) (n m : Nat)
    (h : rollback_candidate ps n = some m) :
    ∃ p ∈ ps, p.number = m ∧ p.status = PatchStatus.Downloaded ∧ m < n := by
  induction ps generalizing m with
  | nil => simp [rollback_candidate] at h
  | cons p rest ih =>
    rw [rollback_candidate_cons] at h
    by_cases hc : (decide (p.number < n) && (p.status == PatchStatus.Downloaded)) = true
    · have hparts := (Bool.and_eq_true _ _).mp hc
      have hlt : p.number < n := of_decide_eq_true hparts.1
      have hst : p.status = PatchStatus.Downloaded := eq_of_beq hparts.2
      rw [if_pos hc] at h
      cases hrc : rollback_candidate rest n with
      | none =>
        rw [hrc] at h
        have hm : p.number = m := by injection h
        exact ⟨p, List.mem_cons_self _ _, hm, hst, hm ▸ hlt⟩
      | some k =>
        rw [hrc] at h
        have hm : max k p.number = m := by injection h
        rcases ih k hrc with ⟨q, hq, hqm, hqst, hqlt⟩
        by_cases hkp : k ≤ p.number
        · have hm2 : p.number = m := by rw [← hm, max_eq_right hkp]
          exact ⟨p, List.mem_cons_self _ _, hm2, hst, hm2 ▸ hlt⟩
        · have hm2 : k = m := by rw [← hm, max_eq_left (le_of_not_le hkp)]
          exact ⟨q, List.mem_cons_of_mem _ hq, hm2 ▸ hqm, hqst, hm2 ▸ hqlt⟩
    · rw [if_neg hc] at h
      rcases ih m h with ⟨q, hq, hrest⟩
      exact ⟨q, List.mem_cons_of_mem _ hq, hrest⟩

/-- Every Downloaded record older than the marked patch is dominated by the
rollback target. -/
theorem rollback_candidate_complete (ps : List Patch) (n : Nat) (p : Patch)
    (hp : p ∈ ps) (hlt : p.number < n) (hst : p.status = PatchStatus.Downloaded) :
    ∃ m, rollback_candidate ps n = some m ∧ p.number ≤ m := by
  induction ps with
  | nil => cases hp
  | cons q rest ih =>
    rw [rollback_candidate_cons]
    by_cases hc : (decide (q.number < n) && (q.status == PatchStatus.Downloaded)) = true
    · rw [if_pos hc]
      rcases List.mem_cons.mp hp with h | h
      · subst h
        cases hrc : rollback_candidate rest n with
        | none => exact ⟨p.number, rfl, le_refl _⟩
        | some k => exact ⟨max k p.number, rfl, le_max_right _ _⟩
      · rcases ih h with ⟨m, hm, hle⟩
        rw [hm]
        exact ⟨max m q.number, rfl, le_trans hle (le_max_left _ _)⟩
    · rw [if_neg hc]
      rcases List.mem_cons.mp hp with h | h
      · exact absurd (by rw [h] at hlt hst; simp [hlt, hst]) hc
      · exact ih h

/-- When the rollback computation finds nothing, no Downloaded record older
than the marked patch exists. -/
theorem rollback_candidate_none (ps : List Patch) (n : Nat)
    (h : rollback_candidate ps n = none) (p : Patch) (hp : p ∈ ps)
    (hlt : p.number < n) : p.status ≠ PatchStatus.Downloaded := by
  intro hst
  rcases rollback_candidate_complete ps n p hp hlt hst with ⟨m, hm, _⟩
  rw [h] at hm
  cases hm

/-! ### Branch lemmas for commit_new_patch -/

theorem commit_eq_of_downloaded (s : EngineState) (n : Nat)
    (h : statusOf s.boot.patches n = some PatchStatus.Downloaded) :
    commit_new_patch s n = s := by
  unfold commit_new_patch
  rw [h]

theorem commit_eq_of_bad (s : EngineState) (n : Nat)
    (h : statusOf s.boot.patches n = some PatchStatus.Bad) :
    commit_new_patch s n = s := by
  unfold commit_new_patch
  rw [h]

theorem commit_eq_fresh (s : EngineState) (n : Nat)
    (h1 : statusOf s.boot.patches n ≠ some PatchStatus.Downloaded)
    (h2 : statusOf s.boot.patches n ≠ some PatchStatus.Bad) :
    commit_new_patch s n =
      { s with boot :=
        { s.boot with
          patches := setStatus s.boot.patches n PatchStatus.Downloaded
          next_boot_patch :=
            if isNewer s.boot.current_boot_patch n then some n
            else s.boot.next_boot_patch } } := by
  unfold commit_new_patch
  cases hst : statusOf s.boot.patches n with
  | none => rfl
  | some st => cases st <;> first | rfl | exact absurd hst h1 | exact absurd hst h2

/-! ### The BootState invariant and its preservation -/

/-- The spec's BootState invariant: next_boot_patch, if set, must reference a
patch with status Downloaded and not Bad (a record has exactly one status, so
this is status = Downloaded). -/
def NextGood (s : EngineState) : Prop :=
  ∀ n, s.boot.next_boot_patch = some n →
    statusOf s.boot.patches n = some PatchStatus.Downloaded

/-- The spec's uniqueness invariant: equal patch numbers cannot occur. -/
def UniqueNumbers (s : EngineState) : Prop :=
  (s.boot.patches.map Patch.number).Nodup

/-- The engine's state invariant. -/
def EngineInv (s : EngineState) : Prop := UniqueNumbers s ∧ NextGood s

theorem number_le_foldr_max (ps : List Patch) (p : Patch) (hp : p ∈ ps) :
    p.number ≤ ps.foldr (fun p acc => max p.number acc) 0 := by
  induction ps with
  | nil => cases hp
  | cons q rest ih =>
    rcases List.mem_cons.mp hp with h | h
    · rw [h]
      exact le_max_left _ _
    · exact le_trans (ih h) (le_max_right _ _)

/-- Every known patch record's number is bounded by the best-known number. -/
theorem number_le_best_known (s : EngineState) (n : Nat) (st : PatchStatus)
    (h : statusOf s.boot.patches n = some st) : n ≤ best_known s := by
  have hm := mem_of_statusOf_eq _ _ _ h
  have := number_le_foldr_max _ _ hm
  exact le_trans this (le_max_right _ _)

theorem commit_new_patch_inv (s : EngineState) (n : Nat) (h : EngineInv s) :
    EngineInv (commit_new_patch s n) := by
  by_cases h1 : statusOf s.boot.patches n = some PatchStatus.Downloaded
  · rw [commit_eq_of_downloaded s n h1]
    exact h
  · by_cases h2 : statusOf s.boot.patches n = some PatchStatus.Bad
    · rw [commit_eq_of_bad s n h2]
      exact h
    · rw [commit_eq_fresh s n h1 h2]
      constructor
      · exact nodup_setStatus _ _ _ h.1
      · intro m hm
        simp only at hm ⊢
        by_cases hnew : isNewer s.boot.current_boot_patch n = true
        · rw [if_pos hnew] at hm
          have : m = n := by injection hm with hm; exact hm.symm
          rw [this]
          exact statusOf_setStatus_self _ _ _
        · rw [if_neg hnew] at hm
          have hold := h.2 m hm
          have hne : m ≠ n := by
            intro he
            exact h1 (he ▸ hold)
          rw [statusOf_setStatus_ne _ _ _ _ hne]
          exact hold

theorem mark_bad_and_rollback_inv (s : EngineState) (n : Nat) (h : EngineInv s) :
    EngineInv (mark_bad_and_rollback s n) := by
  constructor
  · exact nodup_setStatus _ _ _ h.1
  · intro m hm
    simp only [mark_bad_and_rollback] at hm ⊢
    by_cases he : s.boot.next_boot_patch = some n
    · rw [if_pos he] at hm
      rcases rollback_candidate_sound _ _ _ hm with ⟨p, hp, hpm, hpst, _⟩
      have := statusOf_eq_of_mem _ p (nodup_setStatus _ _ _ h.1) hp
      rw [hpm, hpst] at this
      exact this
    · rw [if_neg he] at hm
      have hold := h.2 m hm
      have hne : m ≠ n := by
        intro heq
        exact he (heq ▸ hm)
      rw [statusOf_setStatus_ne _ _ _ _ hne]
      exact hold

theorem fetch_and_verify_inv (s : EngineState) (meta : PatchMetadata) (actual : Nat)
    (hguard : best_known s < meta.number) (h : EngineInv s) :
    EngineInv (fetch_and_verify s meta actual) := by
  unfold fetch_and_verify
  by_cases hsum : actual = meta.checksum
  · rw [if_pos hsum]
    exact commit_new_patch_inv s meta.number h
  · rw [if_neg hsum]
    constructor
    · exact nodup_setStatus _ _ _ h.1
    · intro m hm
      simp only at hm ⊢
      have hold := h.2 m hm
      have hne : m ≠ meta.number := by
        intro he
        have := number_le_best_known s m _ hold
        omega
      rw [statusOf_setStatus_ne _ _ _ _ hne]
      exact hold

theorem run_update_inv (s : EngineState) (meta : PatchMetadata) (actual : Nat)
    (h : EngineInv s) : EngineInv (run_update s meta actual) := by
  unfold run_update
  by_cases hguard : best_known s < meta.number
  · rw [if_pos hguard]
    exact fetch_and_verify_inv s meta actual hguard h
  · rw [if_neg hguard]
    exact h

theorem report_launch_start_inv (s : EngineState) (h : EngineInv s) :
    EngineInv (report_launch_start s).2 := by
  unfold report_launch_start
  cases s.launch <;> exact h

theorem report_launch_failure_inv (s : EngineState) (h : EngineInv s) :
    EngineInv (report_launch_failure s).2 := by
  unfold report_launch_failure
  cases hl : s.launch
  · exact h
  · cases hc : s.boot.current_boot_patch
    · exact ⟨h.1, fun n hn => h.2 n hn⟩
    · exact mark_bad_and_rollback_inv s _ h
  · exact h
  · exact h

theorem report_launch_success_inv (s : EngineState) (h : EngineInv s) :
    EngineInv (report_launch_success s).2 := by
  unfold report_launch_success
  cases s.launch <;> exact h

theorem step_inv (s : EngineState) (op : Op) (h : EngineInv s) : EngineInv (step s op) := by
  cases op with
  | commit n => exact commit_new_patch_inv s n h
  | upd meta actual => exact run_update_inv s meta actual h
  | launch_start => exact report_launch_start_inv s h
  | launch_failure => exact report_launch_failure_inv s h
  | launch_success => exact report_launch_success_inv s h

theorem run_inv (s : EngineState) (ops : List Op) (h : EngineInv s) : EngineInv (run s ops) := by
  induction ops generalizing s with
  | nil => exact h
  | cons op rest ih => exact ih _ (step_inv s op h)

theorem initState_inv : EngineInv initState := by
  constructor
  · simp [UniqueNumbers, initState]
  · intro n hn
    simp [initState] at hn

theorem reachable_inv (s : EngineState) (h : Reachable s) : EngineInv s := by
  induction h with
  | init => exact initState_inv
  | step op _ ih => exact step_inv _ op ih

/-! ### A Bad patch stays Bad -/

theorem bad_commit (s : EngineState) (m n : Nat)
    (hb : statusOf s.boot.patches n = some PatchStatus.Bad) :
    statusOf (commit_new_patch s m).boot.patches n = some PatchStatus.Bad := by
  by_cases h1 : statusOf s.boot.patches m = some PatchStatus.Downloaded
  · rw [commit_eq_of_downloaded s m h1]
    exact hb
  · by_cases h2 : statusOf s.boot.patches m = some PatchStatus.Bad
    · rw [commit_eq_of_bad s m h2]
      exact hb
    · rw [commit_eq_fresh s m h1 h2]
      have hne : n ≠ m := by
        intro he
        exact h2 (he ▸ hb)
      simpa only using (statusOf_setStatus_ne _ _ _ _ hne).trans hb

theorem bad_mark (s : EngineState) (m n : Nat)
    (hb : statusOf s.boot.patches n = some PatchStatus.Bad) :
    statusOf (mark_bad_and_rollback s m).boot.patches n = some PatchStatus.Bad := by
  simp only [mark_bad_and_rollback]
  by_cases he : n = m
  · rw [he]
    exact statusOf_setStatus_self _ _ _
  · rw [statusOf_setStatus_ne _ _ _ _ he]
    exact hb

theorem bad_step (s : EngineState) (op : Op) (n : Nat)
    (hb : statusOf s.boot.patches n = some PatchStatus.Bad) :
    statusOf (step s op).boot.patches n = some PatchStatus.Bad := by
  cases op with
  | commit m => exact bad_commit s m n hb
  | upd meta actual =>
    simp only [step, run_update]
    by_cases hguard : best_known s < meta.number
    · rw [if_pos hguard]
      unfold fetch_and_verify
      by_cases hsum : actual = meta.checksum
      · rw [if_pos hsum]
        exact bad_commit s meta.number n hb
      · rw [if_neg hsum]
        have hne : n ≠ meta.number := by
          intro he
          have := number_le_best_known s n _ hb
          omega
        simpa only using (statusOf_setStatus_ne _ _ _ _ hne).trans hb
    · rw [if_neg hguard]
      exact hb
  | launch_start =>
    simp only [step]
    unfold report_launch_start
    cases s.launch <;> exact hb
  | launch_failure =>
    simp only [step]
    unfold report_launch_failure
    cases s.launch
    · exact hb
    · cases s.boot.current_boot_patch
      · exact hb
      · exact bad_mark s _ n hb
    · exact hb
    · exact hb
  | launch_success =>
    simp only [step]
    unfold report_launch_success
    cases s.launch <;> exact hb

theorem bad_run (s : EngineState) (ops : List Op) (n : Nat)
    (hb : statusOf s.boot.patches n = some PatchStatus.Bad) :
    statusOf (run s ops).boot.patches n = some PatchStatus.Bad := by
  induction ops generalizing s with
  | nil => exact hb
  | cons op rest ih => exact ih _ (bad_step s op n hb)

/-- A state satisfying the invariant never has a Bad patch selected as
next_boot_patch. -/
theorem next_ne_of_bad (s : EngineState) (n : Nat) (hinv : EngineInv s)
    (hb : statusOf s.boot.patches n = some PatchStatus.Bad) :
    s.boot.next_boot_patch ≠ some n := by
  intro he
  have := hinv.2 n he
  rw [hb] at this
  cases this

/-! ### Serialization round trip -/

theorem decodeOpt_encodeOpt (o : Option Nat) : decodeOpt (encodeOpt o) = o := by
  cases o <;> rfl

theorem statusOfCode_statusCode (st : PatchStatus) :
    statusOfCode (statusCode st) = some st := by
  cases st <;> rfl

theorem decodePatches_encodePatches (ps : List Patch) :
    decodePatches (encodePatches ps) = some ps := by
  induction ps with
  | nil => rfl
  | cons p rest ih =>
    simp [encodePatches, decodePatches, statusOfCode_statusCode, ih]

theorem parseBootState_save (b : BootState) :
    parseBootState (bootRecordSave b) = some b := by
  simp [bootRecordSave, parseBootState, decodePatches_encodePatches, decodeOpt_encodeOpt]

/-- C7: a BootState written by save and reloaded by load in a fresh process
yields an identical (current_boot_patch, next_boot_patch) pair — indeed the
identical BootState — and load of an absent (`none`) or unreadable (failing
to parse) document yields the empty/baseline state rather than an error. -/
theorem bootRecord_round_trip :
    (∀ b : BootState,
      (bootRecordLoad (some (bootRecordSave b))).current_boot_patch = b.current_boot_patch ∧
      (bootRecordLoad (some (bootRecordSave b))).next_boot_patch = b.next_boot_patch ∧
      bootRecordLoad (some (bootRecordSave b)) = b) ∧
    bootRecordLoad none = emptyBootState ∧
    (∀ doc : List Nat, parseBootState doc = none →
      bootRecordLoad (some doc) = emptyBootState) := by
  refine ⟨?_, rfl, ?_⟩
  · intro b
    have h : bootRecordLoad (some (bootRecordSave b)) = b := by
      simp [bootRecordLoad, parseBootState_save]
    exact ⟨by rw [h], by rw [h], h⟩
  · intro doc h
    simp [bootRecordLoad, h, emptyBootState]

theorem bootRecord_round_trip_witness :
    bootRecordLoad (some [5]) = emptyBootState ∧
    bootRecordLoad (some (bootRecordSave exampleState56.boot)) = exampleState56.boot :=
  ⟨bootRecord_round_trip.2.2 [5] rfl, (bootRecord_round_trip.1 exampleState56.boot).2.2⟩

/-- C4: while the LaunchTracker is NotStarted, report_launch_failure and
report_launch_success fail with OrderingError and are ignored — the entire
engine state (BootState: current_boot_patch, next_boot_patch, patch statuses;
and the tracker) is returned completely unchanged. -/
theorem launch_report_before_start_ignored (s : EngineState)
    (h : s.launch = LaunchState.NotStarted) :
    report_launch_failure s = (some UpdaterError.OrderingError, s) ∧
    report_launch_success s = (some UpdaterError.OrderingError, s) := by
  unfold report_launch_failure report_launch_success
  rw [h]
  exact ⟨rfl, rfl⟩

theorem launch_report_before_start_ignored_witness :
    report_launch_failure initState = (some UpdaterError.OrderingError, initState) ∧
    report_launch_success initState = (some UpdaterError.OrderingError, initState) :=
  launch_report_before_start_ignored initState rfl

/-- C5: report_launch_start promotes next to current — current_boot_patch
becomes next_boot_patch while next_boot_patch is left unchanged, making the
promotion idempotent with respect to BootState — yet a second call without an
intervening success/failure report fails with StateError and changes
nothing. -/
theorem promote_idempotent_and_double_start_state_error :
    (∀ b : BootState,
      promote_next_to_current (promote_next_to_current b) = promote_next_to_current b) ∧
    ∀ s : EngineState, s.launch = LaunchState.NotStarted →
      (report_launch_start s).1 = none ∧
      (report_launch_start s).2.boot = promote_next_to_current s.boot ∧
      (report_launch_start s).2.boot.current_boot_patch = s.boot.next_boot_patch ∧
      (report_launch_start s).2.boot.next_boot_patch = s.boot.next_boot_patch ∧
      (report_launch_start (report_launch_start s).2).1 = some UpdaterError.StateError ∧
      (report_launch_start (report_launch_start s).2).2 = (report_launch_start s).2 := by
  constructor
  · intro b
    rfl
  · intro s h
    unfold report_launch_start
    rw [h]
    exact ⟨rfl, rfl, rfl, rfl, rfl, rfl⟩

theorem promote_idempotent_witness :
    (report_launch_start exampleState56).1 = none ∧
    (report_launch_start (report_launch_start exampleState56).2).1 =
      some UpdaterError.StateError := by
  have h := promote_idempotent_and_double_start_state_error.2 exampleState56 rfl
  exact ⟨h.1, h.2.2.2.2.1⟩

/-- C6: mark_bad_and_rollback leaves current_boot_patch (and the launch
tracker) unchanged; only the marked patch's record and possibly
next_boot_patch change — every other patch keeps its status, and when the
marked patch is not the next-boot patch even next_boot_patch is untouched. -/
theorem mark_bad_frame (s : EngineState) (n : Nat) :
    (mark_bad_and_rollback s n).boot.current_boot_patch = s.boot.current_boot_patch ∧
    (mark_bad_and_rollback s n).launch = s.launch ∧
    (∀ m, m ≠ n →
      statusOf (mark_bad_and_rollback s n).boot.patches m = statusOf s.boot.patches m) ∧
    (s.boot.next_boot_patch ≠ some n →
      (mark_bad_and_rollback s n).boot.next_boot_patch = s.boot.next_boot_patch) := by
  refine ⟨rfl, rfl, ?_, ?_⟩
  · intro m hm
    exact statusOf_setStatus_ne _ _ _ _ hm
  · intro hne
    simp [mark_bad_and_rollback, hne]

theorem mark_bad_frame_witness :
    (mark_bad_and_rollback exampleStateFrame 2).boot.current_boot_patch =
      exampleStateFrame.boot.current_boot_patch ∧
    statusOf (mark_bad_and_rollback exampleStateFrame 2).boot.patches 1 =
      statusOf exampleStateFrame.boot.patches 1 ∧
    (mark_bad_and_rollback exampleStateFrame 1).boot.next_boot_patch =
      exampleStateFrame.boot.next_boot_patch :=
  ⟨(mark_bad_frame exampleStateFrame 2).1,
   (mark_bad_frame exampleStateFrame 2).2.2.1 1 (by decide),
   (mark_bad_frame exampleStateFrame 1).2.2.2 (by decide)⟩

/-- C10: the two published headers declare the same query with different
sentinels — `uintptr_t` returning 0 versus `char*` returning NULL.  Over
every engine state the interfaces denote the same answer: when the string
interface is NULL the numeric one is 0, when a next patch n exists the
numeric interface returns n and the string one its decimal rendering, and the
numeric 0 means exactly "no next patch or patch number 0" — patch number 0 is
indistinguishable from "no patch" at the numeric interface. -/
theorem next_boot_patch_number_interfaces (s : EngineState) :
    (shorebird_next_boot_patch_number_str s = none →
      shorebird_next_boot_patch_number s = 0) ∧
    (∀ n, s.boot.next_boot_patch = some n →
      shorebird_next_boot_patch_number s = n ∧
      shorebird_next_boot_patch_number_str s = some (toString n)) ∧
    (shorebird_next_boot_patch_number s = 0 ↔
      (s.boot.next_boot_patch = none ∨ s.boot.next_boot_patch = some 0)) := by
  cases hn : s.boot.next_boot_patch with
  | none =>
    simp [shorebird_next_boot_patch_number, shorebird_next_boot_patch_number_str, hn]
  | some k =>
    simp [shorebird_next_boot_patch_number, shorebird_next_boot_patch_number_str, hn]

theorem next_boot_patch_number_interfaces_witness :
    shorebird_next_boot_patch_number initState = 0 ∧
    shorebird_next_boot_patch_number exampleState56 = 6 ∧
    shorebird_next_boot_patch_number_str exampleState56 = some (toString 6) := by
  have h1 := (next_boot_patch_number_interfaces initState).1 rfl
  have h2 := (next_boot_patch_number_interfaces exampleState56).2.1 6 rfl
  exact ⟨h1, h2.1, h2.2⟩

/-- C8: if shorebird_init returns false (invalid configuration), the
process-wide engine state stays unset, and every subsequent boundary call —
singly and along any sequence of calls — is a safe no-op returning the
documented negative/null sentinel, leaving the state unset; the boundary is
total, so no call can propagate a crash into the host. -/
theorem init_failure_all_calls_safe (p : AppParameters) (yaml : Option YamlSettings)
    (w : Bool) (h : (shorebird_init p yaml w).1 = false) :
    (shorebird_init p yaml w).2 = none ∧
    (∀ op, (apiStep none op).2 = none) ∧
    (apiStep none ApiOp.next_number).1 = ApiResult.num 0 ∧
    (apiStep none ApiOp.next_path).1 = ApiResult.str none ∧
    (∀ latest, (apiStep none (ApiOp.check latest)).1 = ApiResult.flag false) ∧
    ∀ ops : List ApiOp,
      ops.foldl (fun u op => (apiStep u op).2) (shorebird_init p yaml w).2 = none := by
  have h2 : (shorebird_init p yaml w).2 = none := by
    unfold shorebird_init at h ⊢
    by_cases hv : valid_config p yaml w = true
    · rw [if_pos hv] at h
      cases h
    · rw [if_neg hv]
  refine ⟨h2, ?_, rfl, rfl, fun _ => rfl, ?_⟩
  · intro op
    cases op <;> rfl
  · intro ops
    rw [h2]
    induction ops with
    | nil => rfl
    | cons op rest ih =>
      have hop : (apiStep none op).2 = none := by cases op <;> rfl
      show List.foldl (fun u op => (apiStep u op).2) (apiStep none op).2 rest = none
      rw [hop]
      exact ih

theorem init_failure_witness :
    (shorebird_init badParams (some ⟨"https://api.shorebird.dev", "stable"⟩) true).1 = false ∧
    (shorebird_init badParams (some ⟨"https://api.shorebird.dev", "stable"⟩) true).2 = none ∧
    [ApiOp.next_number, ApiOp.launch_start, ApiOp.launch_failure].foldl
      (fun u op => (apiStep u op).2)
      (shorebird_init badParams (some ⟨"https://api.shorebird.dev", "stable"⟩) true).2 = none := by
  have h : (shorebird_init badParams (some ⟨"https://api.shorebird.dev", "stable"⟩) true).1
      = false := by decide
  have hall := init_failure_all_calls_safe badParams
    (some ⟨"https://api.shorebird.dev", "stable"⟩) true h
  exact ⟨h, hall.1, hall.2.2.2.2.2 _⟩

/-! ### Committing a strictly increasing sequence of patches -/

theorem statusOf_none_of_gt (ps : List Patch) (m prev : Nat)
    (hbound : ∀ p ∈ ps, p.number ≤ prev) (hgt : prev < m) :
    statusOf ps m = none := by
  cases hst : statusOf ps m with
  | none => rfl
  | some st =>
    have hmem := mem_of_statusOf_eq _ _ _ hst
    have := hbound _ hmem
    simp only at this
    omega

theorem chain_foldl_max (ns : List Nat) (prev : Nat)
    (hchain : List.Chain' (· < ·) (prev :: ns)) :
    ns.foldl max prev ∈ prev :: ns ∧ ∀ x ∈ prev :: ns, x ≤ ns.foldl max prev := by
  induction ns generalizing prev with
  | nil => simp
  | cons m rest ih =>
    have h1 : prev < m := (List.chain'_cons.mp hchain).1
    have h2 := ih m (List.chain'_cons.mp hchain).2
    have hmax : max prev m = m := max_eq_right (le_of_lt h1)
    constructor
    · simp only [List.foldl, hmax]
      exact List.mem_cons_of_mem _ h2.1
    · intro x hx
      simp only [List.foldl, hmax]
      rcases List.mem_cons.mp hx with h | h
      · rw [h]
        exact le_trans (le_of_lt h1) (h2.2 m (List.mem_cons_self _ _))
      · exact h2.2 x h

theorem commit_fold_spec (ns : List Nat) (s : EngineState) (prev : Nat)
    (hcur : s.boot.current_boot_patch = none)
    (hnext : s.boot.next_boot_patch = some prev)
    (hbound : ∀ p ∈ s.boot.patches, p.number ≤ prev)
    (hchain : List.Chain' (· < ·) (prev :: ns)) :
    (ns.foldl commit_new_patch s).boot.current_boot_patch = none ∧
    (ns.foldl commit_new_patch s).boot.next_boot_patch = some (ns.foldl max prev) ∧
    (∀ p ∈ (ns.foldl commit_new_patch s).boot.patches, p.number ≤ ns.foldl max prev) ∧
    (∀ m, m ≤ prev →
      statusOf (ns.foldl commit_new_patch s).boot.patches m = statusOf s.boot.patches m) ∧
    (∀ n ∈ ns,
      statusOf (ns.foldl commit_new_patch s).boot.patches n = some PatchStatus.Downloaded) := by
  induction ns generalizing s prev with
  | nil =>
    exact ⟨hcur, hnext, hbound, fun m _ => rfl, by simp⟩
  | cons m rest ih =>
    have h1 : prev < m := (List.chain'_cons.mp hchain).1
    have h2 : List.Chain' (· < ·) (m :: rest) := (List.chain'_cons.mp hchain).2
    have hfresh : statusOf s.boot.patches m = none := statusOf_none_of_gt _ _ _ hbound h1
    have hc := commit_eq_fresh s m (by rw [hfresh]; simp) (by rw [hfresh]; simp)
    have hcur1 : (commit_new_patch s m).boot.current_boot_patch = none := by
      rw [hc]
      exact hcur
    have hnext1 : (commit_new_patch s m).boot.next_boot_patch = some m := by
      rw [hc]
      simp [hcur, isNewer]
    have hpatches1 : (commit_new_patch s m).boot.patches =
        setStatus s.boot.patches m PatchStatus.Downloaded := by
      rw [hc]
    have hbound1 : ∀ p ∈ (commit_new_patch s m).boot.patches, p.number ≤ m := by
      intro p hp
      rw [hpatches1] at hp
      rcases mem_setStatus _ _ _ _ hp with h | h
      · rw [h]
      · exact le_trans (hbound p h) (le_of_lt h1)
    have hspec := ih (commit_new_patch s m) m hcur1 hnext1 hbound1 h2
    have hmax : max prev m = m := max_eq_right (le_of_lt h1)
    have hfoldeq : (m :: rest).foldl commit_new_patch s =
        rest.foldl commit_new_patch (commit_new_patch s m) := rfl
    refine ⟨?_, ?_, ?_, ?_, ?_⟩
    · rw [hfoldeq]
      exact hspec.1
    · rw [hfoldeq]
      simp only [List.foldl, hmax]
      exact hspec.2.1
    · rw [hfoldeq]
      simp only [List.foldl, hmax]
      exact hspec.2.2.1
    · intro q hq
      rw [hfoldeq, hspec.2.2.2.1 q (by omega), hpatches1,
        statusOf_setStatus_ne _ _ _ _ (by omega)]
    · intro n hn
      rw [hfoldeq]
      rcases List.mem_cons.mp hn with h | h
      · rw [h, hspec.2.2.2.1 m (le_refl m), hpatches1]
        exact statusOf_setStatus_self _ _ _
      · exact hspec.2.2.2.2 n h

/-- C1: after any sequence of commit_new_patch calls with strictly increasing
patch numbers starting from the fresh-install state,
shorebird_next_boot_patch_number returns the highest committed number, and
every committed patch has status Downloaded (none is Bad) — so the result is
the highest committed patch number that is Downloaded and not Bad. -/
theorem commit_sequence_next_boot_highest (ns : List Nat)
    (hinc : List.Chain' (· < ·) ns) (hne : ns ≠ []) :
    shorebird_next_boot_patch_number (ns.foldl commit_new_patch initState) ∈ ns ∧
    (∀ n ∈ ns, n ≤ shorebird_next_boot_patch_number (ns.foldl commit_new_patch initState)) ∧
    ∀ n ∈ ns, statusOf (ns.foldl commit_new_patch initState).boot.patches n =
      some PatchStatus.Downloaded := by
  cases ns with
  | nil => exact absurd rfl hne
  | cons n0 rest =>
    have hfresh : statusOf initState.boot.patches n0 = none := rfl
    have hc := commit_eq_fresh initState n0 (by rw [hfresh]; simp) (by rw [hfresh]; simp)
    have hcur1 : (commit_new_patch initState n0).boot.current_boot_patch = none := by
      rw [hc]
      rfl
    have hnext1 : (commit_new_patch initState n0).boot.next_boot_patch = some n0 := by
      rw [hc]
      simp [initState, isNewer]
    have hpatches1 : (commit_new_patch initState n0).boot.patches =
        setStatus initState.boot.patches n0 PatchStatus.Downloaded := by
      rw [hc]
    have hbound1 : ∀ p ∈ (commit_new_patch initState n0).boot.patches, p.number ≤ n0 := by
      intro p hp
      rw [hpatches1] at hp
      rcases mem_setStatus _ _ _ _ hp with h | h
      · rw [h]
      · simp [initState] at h
    have hspec := commit_fold_spec rest (commit_new_patch initState n0) n0
      hcur1 hnext1 hbound1 hinc
    have hfoldeq : (n0 :: rest).foldl commit_new_patch initState =
        rest.foldl commit_new_patch (commit_new_patch initState n0) := rfl
    have hval : shorebird_next_boot_patch_number
        ((n0 :: rest).foldl commit_new_patch initState) = rest.foldl max n0 := by
      rw [hfoldeq]
      unfold shorebird_next_boot_patch_number
      rw [hspec.2.1]
      rfl
    have hmax := chain_foldl_max rest n0 hinc
    refine ⟨?_, ?_, ?_⟩
    · rw [hval]
      exact hmax.1
    · intro n hn
      rw [hval]
      exact hmax.2 n hn
    · intro n hn
      rw [hfoldeq]
      rcases List.mem_cons.mp hn with h | h
      · rw [h, hspec.2.2.2.1 n0 (le_refl n0), hpatches1]
        exact statusOf_setStatus_self _ _ _
      · exact hspec.2.2.2.2 n h

theorem commit_sequence_witness :
    shorebird_next_boot_patch_number ([1, 3, 7].foldl commit_new_patch initState) ∈
      [1, 3, 7] ∧
    statusOf ([1, 3, 7].foldl commit_new_patch initState).boot.patches 3 =
      some PatchStatus.Downloaded := by
  have hch : List.Chain' (· < ·) [1, 3, 7] := by
    rw [List.chain'_cons, List.chain'_cons]
    exact ⟨by omega, by omega, List.chain'_singleton 7⟩
  have h := commit_sequence_next_boot_highest [1, 3, 7] hch (by decide)
  exact ⟨h.1, h.2.2 3 (by decide)⟩

/-- C3: in every state reachable by any sequence of operations from the
fresh-install state, next_boot_patch, if set, references a patch whose status
is Downloaded (hence not Bad); and a download whose checksum verification
fails is never committed — the update pipeline leaves current_boot_patch,
next_boot_patch and hence the next_boot_patch_number result unchanged. -/
theorem next_boot_invariant_and_corrupt_never_committed :
    (∀ s : EngineState, Reachable s → NextGood s) ∧
    ∀ (s : EngineState) (meta : PatchMetadata) (actual : Nat),
      actual ≠ meta.checksum →
        (run_update s meta actual).boot.current_boot_patch = s.boot.current_boot_patch ∧
        (run_update s meta actual).boot.next_boot_patch = s.boot.next_boot_patch ∧
        shorebird_next_boot_patch_number (run_update s meta actual) =
          shorebird_next_boot_patch_number s := by
  constructor
  · exact fun s h => (reachable_inv s h).2
  · intro s meta actual hsum
    unfold run_update fetch_and_verify
    by_cases hguard : best_known s < meta.number
    · rw [if_pos hguard, if_neg hsum]
      exact ⟨rfl, rfl, rfl⟩
    · rw [if_neg hguard]
      exact ⟨rfl, rfl, rfl⟩

theorem next_boot_invariant_witness :
    NextGood (step initState (Op.commit 3)) ∧
    (run_update initState ⟨1, 10⟩ 9).boot.next_boot_patch =
      initState.boot.next_boot_patch := by
  refine ⟨next_boot_invariant_and_corrupt_never_committed.1 _
    (Reachable.step (Op.commit 3) Reachable.init), ?_⟩
  exact (next_boot_invariant_and_corrupt_never_committed.2 initState ⟨1, 10⟩ 9
    (by decide)).2.1

/-- C2: from a state running patch 5 with patch 6 downloaded and selected
next (and patch numbers unique), report_launch_start followed by
report_launch_failure marks patch 6 Bad; next_boot_patch then points at the
highest Downloaded patch older than 6 — patch 5 whenever patch 5 is
Downloaded — or at "none" exactly when no Downloaded patch older than 6
exists; and no later sequence of operations ever selects the Bad patch 6 as
next_boot_patch again. -/
theorem launch_failure_rollback (s : EngineState)
    (hl : s.launch = LaunchState.NotStarted)
    (hcur : s.boot.current_boot_patch = some 5)
    (hnext : s.boot.next_boot_patch = some 6)
    (h6 : statusOf s.boot.patches 6 = some PatchStatus.Downloaded)
    (hnd : UniqueNumbers s) :
    statusOf (report_launch_failure (report_launch_start s).2).2.boot.patches 6 =
      some PatchStatus.Bad ∧
    (∀ m, (report_launch_failure (report_launch_start s).2).2.boot.next_boot_patch = some m →
      m < 6 ∧
      statusOf (report_launch_failure (report_launch_start s).2).2.boot.patches m =
        some PatchStatus.Downloaded ∧
      ∀ p ∈ s.boot.patches, p.number < 6 → p.status = PatchStatus.Downloaded →
        p.number ≤ m) ∧
    ((report_launch_failure (report_launch_start s).2).2.boot.next_boot_patch = none →
      ∀ p ∈ s.boot.patches, p.number < 6 → p.status ≠ PatchStatus.Downloaded) ∧
    (statusOf s.boot.patches 5 = some PatchStatus.Downloaded →
      (report_launch_failure (report_launch_start s).2).2.boot.next_boot_patch = some 5) ∧
    ∀ ops : List Op,
      (run (report_launch_failure (report_launch_start s).2).2 ops).boot.next_boot_patch ≠
        some 6 := by
  have hs1 : (report_launch_start s).2 =
      { boot := promote_next_to_current s.boot, launch := LaunchState.Started } := by
    unfold report_launch_start
    rw [hl]
  have hs1cur : (report_launch_start s).2.boot.current_boot_patch = some 6 := by
    rw [hs1]
    simp [promote_next_to_current, hnext]
  have hs1next : (report_launch_start s).2.boot.next_boot_patch = some 6 := by
    rw [hs1]
    simp [promote_next_to_current, hnext]
  have hs1patches : (report_launch_start s).2.boot.patches = s.boot.patches := by
    rw [hs1]
    simp [promote_next_to_current]
  have hs1launch : (report_launch_start s).2.launch = LaunchState.Started := by
    rw [hs1]
  have hs2 : (report_launch_failure (report_launch_start s).2).2 =
      { mark_bad_and_rollback (report_launch_start s).2 6 with
        launch := LaunchState.Failed } := by
    unfold report_launch_failure
    rw [hs1launch, hs1cur]
  have hps2 : (report_launch_failure (report_launch_start s).2).2.boot.patches =
      setStatus s.boot.patches 6 PatchStatus.Bad := by
    rw [hs2]
    simp [mark_bad_and_rollback, hs1patches]
  have hnx2 : (report_launch_failure (report_launch_start s).2).2.boot.next_boot_patch =
      rollback_candidate (setStatus s.boot.patches 6 PatchStatus.Bad) 6 := by
    rw [hs2]
    simp [mark_bad_and_rollback, hs1next, hs1patches]
  have hnd2 : ((setStatus s.boot.patches 6 PatchStatus.Bad).map Patch.number).Nodup :=
    nodup_setStatus _ _ _ hnd
  have htrans : ∀ p ∈ s.boot.patches, p.number ≠ 6 →
      (⟨p.number, p.status⟩ : Patch) ∈ setStatus s.boot.patches 6 PatchStatus.Bad := by
    intro p hp hne
    have h1 : statusOf s.boot.patches p.number = some p.status :=
      statusOf_eq_of_mem _ _ hnd hp
    have h2 : statusOf (setStatus s.boot.patches 6 PatchStatus.Bad) p.number =
        some p.status := by
      rw [statusOf_setStatus_ne _ _ _ _ hne]
      exact h1
    exact mem_of_statusOf_eq _ _ _ h2
  refine ⟨?_, ?_, ?_, ?_, ?_⟩
  · rw [hps2]
    exact statusOf_setStatus_self _ _ _
  · intro m hm
    rw [hnx2] at hm
    rcases rollback_candidate_sound _ _ _ hm with ⟨p, hp, hpm, hpst, hplt⟩
    refine ⟨hplt, ?_, ?_⟩
    · rw [hps2]
      have h3 := statusOf_eq_of_mem _ p hnd2 hp
      rw [hpm, hpst] at h3
      exact h3
    · intro q hq hqlt hqst
      have hqmem := htrans q hq (by omega)
      rcases rollback_candidate_complete (setStatus s.boot.patches 6 PatchStatus.Bad) 6
        ⟨q.number, q.status⟩ hqmem hqlt hqst with ⟨k, hk, hle⟩
      rw [hm] at hk
      injection hk with hk
      rw [hk]
      exact hle
  · intro hnone q hq hqlt
    rw [hnx2] at hnone
    exact rollback_candidate_none _ _ hnone ⟨q.number, q.status⟩
      (htrans q hq (by omega)) hqlt
  · intro h5
    have h5mem : (⟨5, PatchStatus.Downloaded⟩ : Patch) ∈
        setStatus s.boot.patches 6 PatchStatus.Bad := by
      apply mem_of_statusOf_eq
      rw [statusOf_setStatus_ne _ _ _ _ (by omega)]
      exact h5
    rcases rollback_candidate_complete (setStatus s.boot.patches 6 PatchStatus.Bad) 6
      ⟨5, PatchStatus.Downloaded⟩ h5mem (by decide) rfl with ⟨k, hk, hle⟩
    rcases rollback_candidate_sound _ _ _ hk with ⟨p, _, _, _, hklt⟩
    have hle5 : 5 ≤ k := hle
    have : k = 5 := by omega
    rw [hnx2, hk, this]
  · intro ops
    have hinv : EngineInv s := by
      refine ⟨hnd, ?_⟩
      intro n hn
      rw [hnext] at hn
      cases hn
      exact h6
    have hinv2 : EngineInv (report_launch_failure (report_launch_start s).2).2 :=
      report_launch_failure_inv _ (report_launch_start_inv _ hinv)
    have hbad2 : statusOf (report_launch_failure (report_launch_start s).2).2.boot.patches 6 =
        some PatchStatus.Bad := by
      rw [hps2]
      exact statusOf_setStatus_self _ _ _
    exact next_ne_of_bad _ 6 (run_inv _ ops hinv2) (bad_run _ ops 6 hbad2)

theorem launch_failure_rollback_witness :
    statusOf (report_launch_failure (report_launch_start exampleState56).2).2.boot.patches 6 =
      some PatchStatus.Bad ∧
    (report_launch_failure (report_launch_start exampleState56).2).2.boot.next_boot_patch =
      some 5 := by
  have h := launch_failure_rollback exampleState56 rfl rfl rfl (by decide)
    (by unfold UniqueNumbers; decide)
  exact ⟨h.1, h.2.2.2.1 (by decide)⟩
